import Mathlib

set_option autoImplicit false

/-!
Shallow embedding of the incremental advisory crawl-and-stage pipeline
(vendor scripts okta_raw.py, fortinet_raw.py, checkpoint_raw.py,
fedora_raw.py, jenkins_raw.py, juniper_raw.py) over the shared staging
table `vendor_staging_table`.
-/

/-- One row of `vendor_staging_table`: (vendor_name, source_url, raw_data,
processed).  The schema gives `processed` default FALSE, and the unique
constraint is on `source_url` (the ON CONFLICT target in every script). -/
structure Row where
  vendor_name : String
  source_url : String
  raw_data : String
  processed : Bool
deriving DecidableEq, Repr

/-- The staging table as a list of rows. -/
abbrev Store := List Row

/-- Whether some row with this `source_url` is present (the ON CONFLICT key). -/
def urlPresent (s : Store) (url : String) : Bool :=
  s.any (fun r => r.source_url == url)

/-- The identity lookup every script performs at run start:
`SELECT source_url FROM vendor_staging_table WHERE vendor_name = %s`. -/
def existing_identities (s : Store) (vendor : String) : List String :=
  (s.filter (fun r => r.vendor_name == vendor)).map (fun r => r.source_url)

/-- `INSERT ... ON CONFLICT (source_url) DO NOTHING` for a single record;
a fresh row gets the schema default `processed = FALSE`
(okta_raw.py, fedora_raw.py, juniper_raw.py). -/
def insertIfAbsent (s : Store) (vendor url payload : String) : Store :=
  if urlPresent s url then s else s ++ [⟨vendor, url, payload, false⟩]

/-- `INSERT ... ON CONFLICT (source_url) DO UPDATE SET raw_data =
EXCLUDED.raw_data, processed = FALSE` for a single record
(fortinet_raw.py, jenkins_raw.py). -/
def upsertReplace (s : Store) (vendor url payload : String) : Store :=
  if urlPresent s url then
    s.map (fun r =>
      if r.source_url == url then
        { r with raw_data := payload, processed := false }
      else r)
  else s ++ [⟨vendor, url, payload, false⟩]

/-- The two conflict policies used by the vendor scripts. -/
inductive WritePolicy where
  | insertIfAbsent
  | upsertReplace
deriving DecidableEq, Repr

/-- Stage one (url, payload) record under the given conflict policy. -/
def stageOne (pol : WritePolicy) (s : Store) (vendor : String)
    (rec : String × String) : Store :=
  match pol with
  | .insertIfAbsent => insertIfAbsent s vendor rec.1 rec.2
  | .upsertReplace => upsertReplace s vendor rec.1 rec.2

/-- Stage a batch of records (the `execute_values` bulk insert). -/
def stageAll (pol : WritePolicy) (s : Store) (vendor : String)
    (recs : List (String × String)) : Store :=
  recs.foldl (fun st rec => stageOne pol st vendor rec) s

/-- Delta computation, common to every script: keep the discovered urls that
are not in the existing set (okta: `all_advisory_urls - existing_advisories`;
jenkins: `[url for url in all_urls if url not in existing_urls]`). -/
def deltaUrls (discovered existing : List String) : List String :=
  discovered.filter (fun u => !(existing.contains u))

/-- One whole vendor run against the store: load the existing identities,
compute the delta, fetch each delta url (`fetch u = none` models a document
whose fetch/extract failed after all attempts and was skipped), and stage
the successful records under the vendor's conflict policy. -/
def runPipeline (pol : WritePolicy) (vendor : String)
    (frontier : List String) (fetch : String → Option String)
    (s : Store) : Store :=
  let existing := existing_identities s vendor
  let delta := deltaUrls frontier existing
  let fetched := delta.filterMap (fun u => (fetch u).map (fun p => (u, p)))
  stageAll pol s vendor fetched

/-! Okta (okta_raw.py): delta computation and per-document fetch. -/

namespace Okta

/-- okta_raw.py line 96: `urls_to_fetch = list(all_advisory_urls - existing_advisories)`. -/
def urls_to_fetch (all_advisory_urls existing_advisories : List String) :
    List String :=
  deltaUrls all_advisory_urls existing_advisories

/-- okta_raw.py `fetch_advisory_detail` (lines 51-85): the whole body is in
a try/except; on success it returns `(url, data)`, on any exception it
returns `(url, None)`.  The transport argument stands for the HTTP GET plus
parse, whose failure is the raised exception. -/
def fetch_advisory_detail (transport : String → Except String String)
    (url : String) : String × Option String :=
  match transport url with
  | .ok d => (url, some d)
  | .error _ => (url, none)

/-- okta_raw.py main (lines 103-109): collect `new_records`, keeping a
record only when `raw_data` is truthy (failed fetches yield None and are
skipped). -/
def new_records (transport : String → Except String String)
    (urls : List String) : List (String × String) :=
  urls.filterMap (fun u =>
    match fetch_advisory_detail transport u with
    | (url, some d) => some (url, d)
    | (_, none) => none)

end Okta

/-! Fortinet (fortinet_raw.py): Selenium delta-scan over the paginated
listing, sequential detail scrape, and upsert staging. -/

namespace Fortinet

def BASE_URL : String := "https://www.fortiguard.com"

def VENDOR_NAME : String := "Fortinet Networks"

/-- One listing page, reduced to the advisory rows found on it
(`soup.find_all("div", class_="row", onclick=True)`); each row is
represented by the detail path parsed from its onclick attribute, the empty
string standing for a row whose onclick yields no path (such a row is
skipped by `if not detail_path: continue`). -/
structure Page where
  rows : List String
deriving DecidableEq, Repr

/-- The detail urls a page contributes to `new_advisories_to_scrape`:
rows with a nonempty path, prefixed with BASE_URL, filtered by
`if detail_url not in existing_urls` (fortinet_raw.py line 131). -/
def pageNewUrls (existing_urls : List String) (pg : Page) : List String :=
  ((pg.rows.filter (fun p => !(p == ""))).map
    (fun p => BASE_URL ++ p)).filter (fun u => !(existing_urls.contains u))

/-- The loop's stop conditions (fortinet_raw.py lines 102-104 and 146-148):
break when the page has no rows, and stop delta-scanning after a page with
no new urls provided `existing_urls` is non-empty. -/
def codeStop (existing_urls : List String) (pg : Page) : Bool :=
  pg.rows.isEmpty ||
    ((pageNewUrls existing_urls pg).isEmpty && !existing_urls.isEmpty)

/-- The stop condition as the delta-scan claim words it, with no
condition on the existing set: the page yields no identities absent from
the existing set, or no identities at all. -/
def specStop (existing_urls : List String) (pg : Page) : Bool :=
  (pageNewUrls existing_urls pg).isEmpty ||
    (pg.rows.filter (fun p => !(p == ""))).isEmpty

/-- The `while keep_scanning` loop of fortinet_raw.py main (lines 92-151)
over the (finite) listing: returns the urls collected into
`new_advisories_to_scrape` and the number of pages scanned. -/
def scanPages (existing_urls : List String) : List Page → List String × Nat
  | [] => ([], 0)
  | pg :: rest =>
    if pg.rows.isEmpty then ([], 1)
    else
      let new := pageNewUrls existing_urls pg
      if new.isEmpty && !existing_urls.isEmpty then (new, 1)
      else
        let r := scanPages existing_urls rest
        (new ++ r.1, r.2 + 1)

/-- The advisory summary dict built from a listing row (fortinet_raw.py
lines 133-141); detail fields are absent (None) until `scrape_detail`
fills them in. -/
structure Advisory where
  url : String
  ir_number : String
  description : String
  affected_products : List String
  updated_date : String
  component : String
  severity : String
  published_date : Option String
  cvssv3_score : Option String
  cve_id_list : Option (List String)
  solution : Option String
deriving DecidableEq, Repr

/-- The fields `scrape_detail` extracts from a successfully fetched and
parsed detail page. -/
structure DetailPage where
  published_date : String
  cvssv3_score : String
  cve_id_list : List String
  solution : String
deriving DecidableEq, Repr

/-- fortinet_raw.py `scrape_detail` (lines 46-75): returns the summary
untouched when it has no url; on transport failure the exception is caught,
logged, and the summary is returned unchanged; on success the detail fields
are merged into the summary. -/
def scrape_detail (transport : String → Except String DetailPage)
    (adv : Advisory) : Advisory :=
  if adv.url == "" then adv
  else
    match transport adv.url with
    | .error _ => adv
    | .ok d =>
      { adv with
        published_date := some d.published_date,
        cvssv3_score := some d.cvssv3_score,
        cve_id_list := some d.cve_id_list,
        solution := some d.solution }

def encodeOpt : Option String → String
  | none => "null"
  | some s => s

/-- Stand-in for `Json(adv)`: a field-by-field rendering of the summary. -/
def encode (adv : Advisory) : String :=
  adv.url ++ "|" ++ adv.ir_number ++ "|" ++ adv.description ++ "|" ++
    String.intercalate "," adv.affected_products ++ "|" ++
    adv.updated_date ++ "|" ++ adv.component ++ "|" ++ adv.severity ++ "|" ++
    encodeOpt adv.published_date ++ "|" ++ encodeOpt adv.cvssv3_score ++ "|" ++
    encodeOpt (adv.cve_id_list.map (String.intercalate ",")) ++ "|" ++
    encodeOpt adv.solution

/-- fortinet_raw.py main, detail-scrape and staging stages (lines 164-178):
every advisory in `unique_advisories_to_scrape` is run through
`scrape_detail` and the result is upserted
(`ON CONFLICT ... DO UPDATE SET raw_data = EXCLUDED.raw_data,
processed = FALSE`). -/
def stageDetails (transport : String → Except String DetailPage)
    (s : Store) (uniques : List Advisory) : Store :=
  stageAll .upsertReplace s VENDOR_NAME
    ((uniques.map (scrape_detail transport)).map
      (fun adv => (adv.url, encode adv)))

end Fortinet

/-! Checkpoint (checkpoint_raw.py): API-driven discovery, stealth browser
detail fetch with a fixed retry ceiling, per-record insert and commit. -/

/-- A backing-store failure during the identity lookup (psycopg2 raising). -/
inductive DbError where
  | unavailable
deriving DecidableEq, Repr

/-- How the identity lookup reports itself in the log: the found-count info
line on success, a distinct warning when the store could not be reached. -/
inductive LookupLog where
  | infoFound (n : Nat)
  | warnStoreFail
deriving DecidableEq, Repr

namespace Checkpoint

def VENDOR_NAME : String := "Check_point"

def ADVISORY_SOURCE_BASE_URL : String :=
  "https://support.checkpoint.com/security-advisories/"

def NAV_RETRIES : Nat := 3

/-- checkpoint_raw.py `get_existing_urls` (lines 35-38): the SELECT is not
wrapped in any try/except, so a store failure propagates to the caller
unchanged. -/
def get_existing_urls (db : Except DbError (List String)) :
    Except DbError (List String) :=
  db

/-- The dict `parse_html` builds; Python truthiness of
`data.get("Solution") or data.get("Symptoms")` is captured by `truthy`. -/
structure PageData where
  solution_title : Option String
  symptoms : Option String
  solution : Option String
deriving DecidableEq, Repr

def truthy : Option String → Bool
  | none => false
  | some s => !(s == "")

/-- One navigation attempt, as `fetch_page_and_parse` distinguishes them: a
raised timeout or other exception, a page matching a client-side error
marker (`"client-side exception" in html or "Application error" in html`),
or a page whose html parses to `PageData`. -/
inductive AttemptOutcome where
  | exn
  | errorMarker
  | parsed (d : PageData)
deriving DecidableEq, Repr

/-- Whether one attempt's outcome makes `fetch_page_and_parse` return its
data: a parsed page with a truthy Solution or Symptoms field. -/
def attemptOk : AttemptOutcome → Bool
  | .parsed d => truthy d.solution || truthy d.symptoms
  | _ => false

/-- The body of the retry loop of `fetch_page_and_parse` (lines 78-94):
`attempt` is the loop counter, `fuel` the remaining iterations of
`range(1, NAV_RETRIES+1)`, and `used` the attempts made so far; the result
pairs the returned data (`none` models the final `return {}`) with the
total number of attempts made. -/
def fetchLoop (transport : Nat → AttemptOutcome) :
    Nat → Nat → Nat → Option PageData × Nat
  | _, 0, used => (none, used)
  | attempt, fuel + 1, used =>
    match transport attempt with
    | .parsed d =>
      if truthy d.solution || truthy d.symptoms then (some d, used + 1)
      else fetchLoop transport (attempt + 1) fuel (used + 1)
    | _ => fetchLoop transport (attempt + 1) fuel (used + 1)

/-- checkpoint_raw.py `fetch_page_and_parse` (lines 77-95):
`for attempt in range(1, NAV_RETRIES+1)`, returning the parsed data on the
first acceptable page and `{}` (here `none`) once the ceiling is
exhausted. -/
def fetch_page_and_parse (transport : Nat → AttemptOutcome) :
    Option PageData × Nat :=
  fetchLoop transport 1 NAV_RETRIES 0

/-- One advisory from the `getAllActive` API response: its id, its optional
skId (empty string for a missing one), and the rest of the payload. -/
structure Advisory where
  id : String
  skId : String
  apiFields : String
deriving DecidableEq, Repr

def encodePage : Option PageData → String
  | none => ""
  | some d =>
    (match d.solution_title with | none => "null" | some s => s) ++ "|" ++
      (match d.symptoms with | none => "null" | some s => s) ++ "|" ++
      (match d.solution with | none => "null" | some s => s)

/-- The merged record `final = {**adv, **scraped}` (line 151). -/
def encodeFinal (adv : Advisory) (scraped : Option PageData) : String :=
  adv.apiFields ++ "|" ++ encodePage scraped

/-- checkpoint_raw.py `insert_advisory` (lines 40-46): a single-record
`INSERT ... ON CONFLICT (source_url) DO NOTHING` with an explicit
`processed = False`, committed immediately. -/
def insert_advisory (s : Store) (src data : String) : Store :=
  insertIfAbsent s VENDOR_NAME src data

/-- checkpoint_raw.py main (lines 98-163): the identity lookup is performed
with no error handling, so a failing store aborts the run before any
advisory is processed; otherwise each advisory not already staged is
scraped (when it has an skId) and inserted. -/
def runMain (db : Except DbError (List String))
    (transport : String → Nat → AttemptOutcome)
    (advisories : List Advisory) : Except DbError Store := do
  let existing ← get_existing_urls db
  let step := fun (st : Store) (adv : Advisory) =>
    let src := ADVISORY_SOURCE_BASE_URL ++ adv.id
    if existing.contains src then st
    else
      let scraped :=
        if adv.skId == "" then none
        else (fetch_page_and_parse (transport adv.skId)).1
      insert_advisory st src (encodeFinal adv scraped)
  pure (advisories.foldl step [])

end Checkpoint

/-! Fedora (fedora_raw.py) and Juniper (juniper_raw.py): fail-open identity
lookup with distinct logging, and Juniper's per-row staging loop. -/

namespace Fedora

def VENDOR_NAME : String := "Fedora"

/-- fedora_raw.py `get_existing_urls` (lines 33-41): the SELECT is wrapped
in try/except; on success it logs the found count, on `psycopg2.Error` it
logs a warning and falls through to the initial empty set. -/
def get_existing_urls (db : Except DbError (List String)) :
    List String × LookupLog :=
  match db with
  | .ok urls => (urls, .infoFound urls.length)
  | .error _ => ([], .warnStoreFail)

/-- fedora_raw.py main (lines 158-192): discovery filtered against the
looked-up existing set, concurrent detail parse (failures yield records
carrying an `error` key, which the staging filter drops, modelled by
`fetch u = none`), then a bulk `ON CONFLICT DO NOTHING` insert. -/
def runMain (db : Except DbError (List String)) (frontier : List String)
    (fetch : String → Option String) (s : Store) : Store :=
  let existing := (get_existing_urls db).1
  stageAll .insertIfAbsent s VENDOR_NAME
    ((deltaUrls frontier existing).filterMap
      (fun u => (fetch u).map (fun p => (u, p))))

end Fedora

namespace Juniper

def VENDOR_NAME : String := "Juniper"

/-- juniper_raw.py `get_existing_urls` (lines 142-154): wrapped in a
try/except over any Exception; on failure it logs a warning and returns the
initial empty set, on success it logs the found count. -/
def get_existing_urls (db : Except DbError (List String)) :
    List String × LookupLog :=
  match db with
  | .ok urls => (urls, .infoFound urls.length)
  | .error _ => ([], .warnStoreFail)

/-- juniper_raw.py `scrape_advisory` (lines 78-124): on a timeout or any
other exception the error is logged and None is returned; on success the
record (keyed by its url) is returned. -/
def scrape_advisory (transport : String → Except String String)
    (title link : String) : Option (String × String) :=
  match transport link with
  | .ok d => some (link, title ++ "|" ++ d)
  | .error _ => none

/-- juniper_raw.py `scrape_batch` (lines 127-139): scrape every advisory,
keeping only the successful rows (`if row: results.append(row)`). -/
def scrape_batch (transport : String → Except String String)
    (advisories : List (String × String)) : List (String × String) :=
  advisories.filterMap (fun tl => scrape_advisory transport tl.1 tl.2)

/-- The state of juniper's single psycopg2 transaction: the rows as seen
inside the open transaction, and whether a failed statement has left it in
the aborted state. -/
structure Tx where
  pending : Store
  aborted : Bool

/-- One `cur.execute` of juniper's staging loop against the transaction
state.  In an aborted transaction the execute raises
InFailedSqlTransaction, which the per-row try/except also catches, so
nothing happens; a server-side failure (`fails row.1 = true`) is caught
and logged but leaves the transaction aborted; otherwise the
`INSERT ... ON CONFLICT (source_url) DO NOTHING` takes effect inside the
transaction. -/
def insertStep (fails : String → Bool) (tx : Tx)
    (row : String × String) : Tx :=
  if tx.aborted then tx
  else if fails row.1 then { tx with aborted := true }
  else { tx with pending := insertIfAbsent tx.pending VENDOR_NAME row.1 row.2 }

/-- juniper_raw.py `insert_into_staging` (lines 156-170): every row is
inserted inside one psycopg2 transaction, each execute wrapped in its own
try/except, with a single `conn.commit()` at the end and no rollback
anywhere.  The COMMIT of a transaction a failed execute has aborted is a
rollback, so it leaves the store as it was; only a fully successful batch
makes the pending rows durable. -/
def insert_into_staging (fails : String → Bool) (s : Store)
    (data_list : List (String × String)) : Store :=
  let final := data_list.foldl (insertStep fails) ⟨s, false⟩
  if final.aborted then s else final.pending

end Juniper

/-! Jenkins (jenkins_raw.py): same shape as Okta's run with the
upsert-replace conflict policy (`ON CONFLICT (source_url) DO UPDATE SET
raw_data = EXCLUDED.raw_data, processed = FALSE`, lines 121-130). -/

namespace Jenkins

def VENDOR_NAME : String := "Jenkins"

/-- jenkins_raw.py main (lines 96-135) as an instance of the shared
pipeline: delta against the looked-up set, fetch (failures skipped at line
118), bulk upsert. -/
def runMain (frontier : List String) (fetch : String → Option String)
    (s : Store) : Store :=
  runPipeline .upsertReplace VENDOR_NAME frontier fetch s

end Jenkins

/-- A url's rows all carry this payload, with the processed flag clear:
the state the upsert leaves behind, under which re-upserting the same
payload is the identity. -/
def writtenAs (s : Store) (u p : String) : Prop :=
  ∀ r ∈ s, r.source_url = u → r.raw_data = p ∧ r.processed = false

/-! Basic store lemmas. -/

theorem urlPresent_iff {s : Store} {u : String} :
    urlPresent s u = true ↔ ∃ r ∈ s, r.source_url = u := by
  simp [urlPresent]

theorem mem_existing_identities {s : Store} {v u : String} :
    u ∈ existing_identities s v ↔
      ∃ r ∈ s, r.vendor_name = v ∧ r.source_url = u := by
  simp only [existing_identities, List.mem_map, List.mem_filter, beq_iff_eq]
  constructor
  · rintro ⟨r, ⟨hr, hv⟩, hu⟩
    exact ⟨r, hr, hv, hu⟩
  · rintro ⟨r, hr, hv, hu⟩
    exact ⟨r, ⟨hr, hv⟩, hu⟩

theorem mem_deltaUrls {frontier existing : List String} {u : String} :
    u ∈ deltaUrls frontier existing ↔ u ∈ frontier ∧ u ∉ existing := by
  simp [deltaUrls]

theorem stageOne_vendor_url_preserved (pol : WritePolicy) (s : Store)
    (v : String) (rec : String × String) {r : Row} (hr : r ∈ s) :
    ∃ r2 ∈ stageOne pol s v rec, r2.vendor_name = r.vendor_name ∧
      r2.source_url = r.source_url := by
  cases pol with
  | insertIfAbsent =>
    simp only [stageOne, insertIfAbsent]
    by_cases h : urlPresent s rec.1
    · exact ⟨r, by simp [h, hr]⟩
    · exact ⟨r, by simp [h, hr]⟩
  | upsertReplace =>
    simp only [stageOne, upsertReplace]
    by_cases h : urlPresent s rec.1
    · refine ⟨if r.source_url == rec.1 then
        { r with raw_data := rec.2, processed := false } else r, ?_, ?_⟩
      · simp only [h, if_pos]
        exact List.mem_map_of_mem _ hr
      · by_cases hu : r.source_url == rec.1 <;> simp [hu]
    · exact ⟨r, by simp [h, hr]⟩

theorem urlPresent_stageOne_mono {s : Store} {u : String}
    (pol : WritePolicy) (v : String) (rec : String × String)
    (h : urlPresent s u = true) :
    urlPresent (stageOne pol s v rec) u = true := by
  rcases urlPresent_iff.mp h with ⟨r, hr, hu⟩
  rcases stageOne_vendor_url_preserved pol s v rec hr with ⟨r2, hr2, _, hu2⟩
  exact urlPresent_iff.mpr ⟨r2, hr2, hu2.trans hu⟩

theorem mem_existing_stageOne_mono {s : Store} {vq u : String}
    (pol : WritePolicy) (v : String) (rec : String × String)
    (h : u ∈ existing_identities s vq) :
    u ∈ existing_identities (stageOne pol s v rec) vq := by
  rcases mem_existing_identities.mp h with ⟨r, hr, hv, hu⟩
  rcases stageOne_vendor_url_preserved pol s v rec hr with ⟨r2, hr2, hv2, hu2⟩
  exact mem_existing_identities.mpr ⟨r2, hr2, hv2.trans hv, hu2.trans hu⟩

theorem urlPresent_stageAll_mono {u : String} (pol : WritePolicy)
    (v : String) (recs : List (String × String)) (s : Store)
    (h : urlPresent s u = true) :
    urlPresent (stageAll pol s v recs) u = true := by
  induction recs generalizing s with
  | nil => exact h
  | cons rec rest ih =>
    exact ih _ (urlPresent_stageOne_mono pol v rec h)

theorem mem_existing_stageAll_mono {vq u : String} (pol : WritePolicy)
    (v : String) (recs : List (String × String)) (s : Store)
    (h : u ∈ existing_identities s vq) :
    u ∈ existing_identities (stageAll pol s v recs) vq := by
  induction recs generalizing s with
  | nil => exact h
  | cons rec rest ih =>
    exact ih _ (mem_existing_stageOne_mono pol v rec h)

theorem urlPresent_stageOne_self (pol : WritePolicy) (s : Store)
    (v : String) (rec : String × String) :
    urlPresent (stageOne pol s v rec) rec.1 = true := by
  cases pol with
  | insertIfAbsent =>
    simp only [stageOne, insertIfAbsent]
    by_cases h : urlPresent s rec.1 = true
    · rw [if_pos h]; exact h
    · rw [if_neg h]
      refine urlPresent_iff.mpr ⟨⟨v, rec.1, rec.2, false⟩, ?_, rfl⟩
      simp
  | upsertReplace =>
    simp only [stageOne, upsertReplace]
    by_cases h : urlPresent s rec.1 = true
    · rw [if_pos h]
      rcases urlPresent_iff.mp h with ⟨r, hr, hu⟩
      refine urlPresent_iff.mpr ⟨if r.source_url == rec.1 then
        { r with raw_data := rec.2, processed := false } else r,
        List.mem_map_of_mem _ hr, ?_⟩
      simp [hu]
    · rw [if_neg h]
      refine urlPresent_iff.mpr ⟨⟨v, rec.1, rec.2, false⟩, ?_, rfl⟩
      simp

theorem stageAll_cons (pol : WritePolicy) (s : Store) (v : String)
    (rec : String × String) (recs : List (String × String)) :
    stageAll pol s v (rec :: recs) =
      stageAll pol (stageOne pol s v rec) v recs :=
  rfl

theorem insertIfAbsent_noop {s : Store} {u : String} (v p : String)
    (h : urlPresent s u = true) : insertIfAbsent s v u p = s := by
  simp only [insertIfAbsent, if_pos h]

theorem upsertReplace_noop {s : Store} {u p : String} (v : String)
    (h : urlPresent s u = true) (hw : writtenAs s u p) :
    upsertReplace s v u p = s := by
  simp only [upsertReplace, if_pos h]
  have hid : ∀ r ∈ s,
      (if r.source_url == u then
        { r with raw_data := p, processed := false } else r) = r := by
    intro r hr
    by_cases hu : r.source_url == u
    · rcases hw r hr (by simpa using hu) with ⟨h1, h2⟩
      cases r
      simp_all
    · simp [hu]
  rw [List.map_congr_left hid]
  exact List.map_id' s

theorem upsertReplace_writtenAs (s : Store) (v u p : String) :
    writtenAs (upsertReplace s v u p) u p := by
  intro r hr hu
  simp only [upsertReplace] at hr
  by_cases h : urlPresent s u = true
  · rw [if_pos h] at hr
    rcases List.mem_map.mp hr with ⟨r0, hr0, rfl⟩
    by_cases h0 : r0.source_url == u
    · simp [h0]
    · rw [if_neg (by simpa using h0)] at hu ⊢
      exact absurd hu (by simpa using h0)
  · rw [if_neg h] at hr
    rcases List.mem_append.mp hr with hr | hr
    · exact absurd (urlPresent_iff.mpr ⟨r, hr, hu⟩) h
    · simp only [List.mem_singleton] at hr
      subst hr
      exact ⟨rfl, rfl⟩

theorem writtenAs_stageOne (pol : WritePolicy) {s : Store} {u p : String}
    (v : String) (rec : String × String)
    (hcompat : rec.1 = u → rec.2 = p) (hw : writtenAs s u p) :
    writtenAs (stageOne pol s v rec) u p := by
  intro r hr hu
  cases pol with
  | insertIfAbsent =>
    simp only [stageOne, insertIfAbsent] at hr
    by_cases h : urlPresent s rec.1 = true
    · rw [if_pos h] at hr
      exact hw r hr hu
    · rw [if_neg h] at hr
      rcases List.mem_append.mp hr with hr | hr
      · exact hw r hr hu
      · simp only [List.mem_singleton] at hr
        subst hr
        exact ⟨hcompat hu, rfl⟩
  | upsertReplace =>
    simp only [stageOne, upsertReplace] at hr
    by_cases h : urlPresent s rec.1 = true
    · rw [if_pos h] at hr
      rcases List.mem_map.mp hr with ⟨r0, hr0, rfl⟩
      by_cases h0 : r0.source_url == rec.1
      · rw [if_pos h0] at hu ⊢
        have h1 : rec.1 = u := by
          rw [← hu]
          exact ((beq_iff_eq.mp h0)).symm
        exact ⟨hcompat h1, rfl⟩
      · rw [if_neg (by simpa using h0)] at hu ⊢
        exact hw r0 hr0 hu
    · rw [if_neg h] at hr
      rcases List.mem_append.mp hr with hr | hr
      · exact hw r hr hu
      · simp only [List.mem_singleton] at hr
        subst hr
        exact ⟨hcompat hu, rfl⟩

theorem writtenAs_stageAll (pol : WritePolicy) {u p : String} (v : String)
    (recs : List (String × String)) (s : Store)
    (hcompat : ∀ rec ∈ recs, rec.1 = u → rec.2 = p)
    (hw : writtenAs s u p) :
    writtenAs (stageAll pol s v recs) u p := by
  induction recs generalizing s with
  | nil => exact hw
  | cons rec rest ih =>
    rw [stageAll_cons]
    exact ih _ (fun r hr => hcompat r (List.mem_cons_of_mem _ hr))
      (writtenAs_stageOne pol v rec (hcompat rec (List.mem_cons_self _ _)) hw)

theorem urlPresent_stageAll_of_mem (pol : WritePolicy) (v : String)
    (recs : List (String × String)) (s : Store) {rec : String × String}
    (h : rec ∈ recs) :
    urlPresent (stageAll pol s v recs) rec.1 = true := by
  induction recs generalizing s with
  | nil => cases h
  | cons rec0 rest ih =>
    rw [stageAll_cons]
    rcases List.mem_cons.mp h with h | h
    · subst h
      exact urlPresent_stageAll_mono pol v rest _
        (urlPresent_stageOne_self pol s v rec)
    · exact ih _ h

theorem stageAll_writtenAs_of_mem (v : String)
    (recs : List (String × String)) (s : Store) {rec : String × String}
    (h : rec ∈ recs)
    (hfun : ∀ r1 ∈ recs, ∀ r2 ∈ recs, r1.1 = r2.1 → r1.2 = r2.2) :
    writtenAs (stageAll .upsertReplace s v recs) rec.1 rec.2 := by
  induction recs generalizing s with
  | nil => cases h
  | cons rec0 rest ih =>
    rw [stageAll_cons]
    rcases List.mem_cons.mp h with h | h
    · subst h
      refine writtenAs_stageAll _ v rest _ ?_
        (upsertReplace_writtenAs s v rec.1 rec.2)
      intro r hr hru
      exact hfun r (List.mem_cons_of_mem _ hr) rec (List.mem_cons_self _ _) hru
    · exact ih _ h
        (fun r1 h1 r2 h2 =>
          hfun r1 (List.mem_cons_of_mem _ h1) r2 (List.mem_cons_of_mem _ h2))

theorem stageAll_noop (pol : WritePolicy) (v : String)
    (recs : List (String × String)) (s : Store)
    (h : ∀ rec ∈ recs, stageOne pol s v rec = s) :
    stageAll pol s v recs = s := by
  induction recs with
  | nil => rfl
  | cons rec rest ih =>
    rw [stageAll_cons, h rec (List.mem_cons_self _ _)]
    exact ih (fun r hr => h r (List.mem_cons_of_mem _ hr))

theorem mem_fetched {frontier existing : List String}
    {fetch : String → Option String} {u p : String} :
    (u, p) ∈ (deltaUrls frontier existing).filterMap
        (fun u2 => (fetch u2).map (fun p2 => (u2, p2))) ↔
      (u ∈ frontier ∧ u ∉ existing) ∧ fetch u = some p := by
  simp only [List.mem_filterMap, Option.map_eq_some', Prod.mk.injEq,
    mem_deltaUrls]
  constructor
  · rintro ⟨u2, hu2, p2, hfetch, rfl, rfl⟩
    exact ⟨hu2, hfetch⟩
  · rintro ⟨hu, hfetch⟩
    exact ⟨u, hu, p, hfetch, rfl, rfl⟩

theorem runPipeline_unfold (pol : WritePolicy) (v : String)
    (frontier : List String) (fetch : String → Option String) (s : Store) :
    runPipeline pol v frontier fetch s =
      stageAll pol s v
        ((deltaUrls frontier (existing_identities s v)).filterMap
          (fun u => (fetch u).map (fun p => (u, p)))) :=
  rfl

theorem runPipeline_idem (pol : WritePolicy) (v : String)
    (frontier : List String) (fetch : String → Option String) (s : Store) :
    runPipeline pol v frontier fetch (runPipeline pol v frontier fetch s) =
      runPipeline pol v frontier fetch s := by
  have hL1 : ∀ u p,
      (u, p) ∈ (deltaUrls frontier
          (existing_identities s v)).filterMap
        (fun u2 => (fetch u2).map (fun p2 => (u2, p2))) ↔
        (u ∈ frontier ∧ u ∉ existing_identities s v) ∧ fetch u = some p :=
    fun u p => mem_fetched
  rw [runPipeline_unfold pol v frontier fetch (runPipeline pol v frontier fetch s)]
  apply stageAll_noop
  rintro ⟨u, p⟩ hrec
  rcases mem_fetched.mp hrec with ⟨⟨hfront, hnotex1⟩, hfetch⟩
  have hnotex0 : u ∉ existing_identities s v := by
    intro h0
    exact hnotex1 (by
      rw [runPipeline_unfold]
      exact mem_existing_stageAll_mono pol v _ s h0)
  have hmemL1 : (u, p) ∈ (deltaUrls frontier
      (existing_identities s v)).filterMap
        (fun u2 => (fetch u2).map (fun p2 => (u2, p2))) :=
    (hL1 u p).mpr ⟨⟨hfront, hnotex0⟩, hfetch⟩
  have hpres : urlPresent (runPipeline pol v frontier fetch s) u = true := by
    rw [runPipeline_unfold]
    exact urlPresent_stageAll_of_mem pol v _ s hmemL1
  cases pol with
  | insertIfAbsent =>
    exact insertIfAbsent_noop v p hpres
  | upsertReplace =>
    have hw : writtenAs (runPipeline .upsertReplace v frontier fetch s) u p := by
      rw [runPipeline_unfold]
      apply stageAll_writtenAs_of_mem v _ s hmemL1
      intro r1 h1 r2 h2 heq
      rcases mem_fetched.mp (show (r1.1, r1.2) ∈ _ from h1) with ⟨_, hf1⟩
      rcases mem_fetched.mp (show (r2.1, r2.2) ∈ _ from h2) with ⟨_, hf2⟩
      rw [heq] at hf1
      rw [hf1] at hf2
      exact Option.some.inj hf2
    exact upsertReplace_noop v hpres hw

/-! Processed-flag lemmas. -/

theorem mem_stageOne_processed (pol : WritePolicy) (s : Store) (v : String)
    (rec : String × String) :
    ∀ r ∈ stageOne pol s v rec, r ∈ s ∨ r.processed = false := by
  intro r hr
  cases pol with
  | insertIfAbsent =>
    simp only [stageOne, insertIfAbsent] at hr
    by_cases h : urlPresent s rec.1 = true
    · rw [if_pos h] at hr
      exact Or.inl hr
    · rw [if_neg h] at hr
      rcases List.mem_append.mp hr with hr | hr
      · exact Or.inl hr
      · simp only [List.mem_singleton] at hr
        subst hr
        exact Or.inr rfl
  | upsertReplace =>
    simp only [stageOne, upsertReplace] at hr
    by_cases h : urlPresent s rec.1 = true
    · rw [if_pos h] at hr
      rcases List.mem_map.mp hr with ⟨r0, hr0, rfl⟩
      by_cases h0 : r0.source_url == rec.1
      · rw [if_pos h0]
        exact Or.inr rfl
      · rw [if_neg (by simpa using h0)]
        exact Or.inl hr0
    · rw [if_neg h] at hr
      rcases List.mem_append.mp hr with hr | hr
      · exact Or.inl hr
      · simp only [List.mem_singleton] at hr
        subst hr
        exact Or.inr rfl

theorem mem_stageAll_processed (pol : WritePolicy) (v : String)
    (recs : List (String × String)) (s : Store) :
    ∀ r ∈ stageAll pol s v recs, r ∈ s ∨ r.processed = false := by
  induction recs generalizing s with
  | nil => exact fun r hr => Or.inl hr
  | cons rec rest ih =>
    intro r hr
    rw [stageAll_cons] at hr
    rcases ih _ r hr with h | h
    · exact mem_stageOne_processed pol s v rec r h
    · exact Or.inr h

theorem juniper_fold_processed (fails : String → Bool)
    (rows : List (String × String)) (s : Store) :
    ∀ tx : Juniper.Tx, (∀ r ∈ tx.pending, r ∈ s ∨ r.processed = false) →
      ∀ r ∈ (rows.foldl (Juniper.insertStep fails) tx).pending,
        r ∈ s ∨ r.processed = false := by
  induction rows with
  | nil => exact fun tx h => h
  | cons row rest ih =>
    intro tx h
    rw [List.foldl_cons]
    apply ih
    intro r hr
    simp only [Juniper.insertStep] at hr
    by_cases ha : tx.aborted = true
    · rw [if_pos ha] at hr
      exact h r hr
    · rw [if_neg ha] at hr
      by_cases hf : fails row.1 = true
      · rw [if_pos hf] at hr
        exact h r hr
      · rw [if_neg hf] at hr
        rcases mem_stageOne_processed .insertIfAbsent tx.pending
          Juniper.VENDOR_NAME (row.1, row.2) r hr with h2 | h2
        · exact h r h2
        · exact Or.inr h2

theorem mem_juniper_insert_processed (fails : String → Bool)
    (rows : List (String × String)) (s : Store) :
    ∀ r ∈ Juniper.insert_into_staging fails s rows,
      r ∈ s ∨ r.processed = false := by
  intro r hr
  have hr2 : r ∈ (if (rows.foldl (Juniper.insertStep fails)
      (⟨s, false⟩ : Juniper.Tx)).aborted then s
      else (rows.foldl (Juniper.insertStep fails)
        (⟨s, false⟩ : Juniper.Tx)).pending) := hr
  by_cases ha : (rows.foldl (Juniper.insertStep fails)
      (⟨s, false⟩ : Juniper.Tx)).aborted = true
  · rw [if_pos ha] at hr2
    exact Or.inl hr2
  · rw [if_neg ha] at hr2
    exact juniper_fold_processed fails rows s ⟨s, false⟩
      (fun r2 hr3 => Or.inl hr3) r hr2

/-! Checkpoint retry-loop lemmas. -/

theorem fetchLoop_all_fail (transport : Nat → Checkpoint.AttemptOutcome)
    (hfail : ∀ n, Checkpoint.attemptOk (transport n) = false) :
    ∀ (fuel attempt used : Nat),
      Checkpoint.fetchLoop transport attempt fuel used = (none, used + fuel) := by
  intro fuel
  induction fuel with
  | zero => intro attempt used; rfl
  | succ f ih =>
    intro attempt used
    have hf := hfail attempt
    cases htr : transport attempt with
    | exn =>
      simp only [Checkpoint.fetchLoop, htr]
      rw [ih (attempt + 1) (used + 1)]
      have hn : used + 1 + f = used + (f + 1) := by omega
      rw [hn]
    | errorMarker =>
      simp only [Checkpoint.fetchLoop, htr]
      rw [ih (attempt + 1) (used + 1)]
      have hn : used + 1 + f = used + (f + 1) := by omega
      rw [hn]
    | parsed d =>
      rw [htr] at hf
      simp only [Checkpoint.attemptOk] at hf
      simp only [Checkpoint.fetchLoop, htr, hf, if_false]
      rw [ih (attempt + 1) (used + 1)]
      have hn : used + 1 + f = used + (f + 1) := by omega
      rw [hn]
      simp

theorem fetchLoop_attempts_le (transport : Nat → Checkpoint.AttemptOutcome) :
    ∀ (fuel attempt used : Nat),
      (Checkpoint.fetchLoop transport attempt fuel used).2 ≤ used + fuel := by
  intro fuel
  induction fuel with
  | zero => intro attempt used; exact Nat.le_refl _
  | succ f ih =>
    intro attempt used
    cases htr : transport attempt with
    | exn =>
      simp only [Checkpoint.fetchLoop, htr]
      exact le_trans (ih (attempt + 1) (used + 1)) (by omega)
    | errorMarker =>
      simp only [Checkpoint.fetchLoop, htr]
      exact le_trans (ih (attempt + 1) (used + 1)) (by omega)
    | parsed d =>
      simp only [Checkpoint.fetchLoop, htr]
      by_cases hok : (Checkpoint.truthy d.solution || Checkpoint.truthy d.symptoms) = true
      · rw [if_pos hok]
        show used + 1 ≤ used + (f + 1)
        omega
      · rw [if_neg hok]
        exact le_trans (ih (attempt + 1) (used + 1)) (by omega)

/-! Fortinet delta-scan lemmas. -/

theorem mem_pageNewUrls_not_existing {existing : List String}
    {pg : Fortinet.Page} {u : String}
    (h : u ∈ Fortinet.pageNewUrls existing pg) : u ∉ existing := by
  have := (List.mem_filter.mp h).2
  simpa using this

theorem scanPages_nil (existing : List String) :
    Fortinet.scanPages existing [] = ([], 0) :=
  rfl

theorem scanPages_cons (existing : List String) (pg : Fortinet.Page)
    (rest : List Fortinet.Page) :
    Fortinet.scanPages existing (pg :: rest) =
      if pg.rows.isEmpty then ([], 1)
      else
        if (Fortinet.pageNewUrls existing pg).isEmpty &&
            !existing.isEmpty then (Fortinet.pageNewUrls existing pg, 1)
        else ((Fortinet.pageNewUrls existing pg) ++
          (Fortinet.scanPages existing rest).1,
          (Fortinet.scanPages existing rest).2 + 1) :=
  rfl

theorem scanPages_not_existing (existing : List String)
    (pages : List Fortinet.Page) :
    ∀ u ∈ (Fortinet.scanPages existing pages).1, u ∉ existing := by
  induction pages with
  | nil => intro u hu; cases hu
  | cons pg rest ih =>
    intro u hu
    rw [scanPages_cons] at hu
    by_cases h1 : pg.rows.isEmpty
    · rw [if_pos h1] at hu
      cases hu
    · rw [if_neg h1] at hu
      by_cases h2 : ((Fortinet.pageNewUrls existing pg).isEmpty &&
          !existing.isEmpty) = true
      · rw [if_pos h2] at hu
        exact mem_pageNewUrls_not_existing hu
      · rw [if_neg h2] at hu
        rcases List.mem_append.mp hu with hu | hu
        · exact mem_pageNewUrls_not_existing hu
        · exact ih u hu

theorem scanPages_stops_at_first (existing : List String)
    (pages : List Fortinet.Page)
    (h : ∃ pg ∈ pages, Fortinet.codeStop existing pg = true) :
    (Fortinet.scanPages existing pages).2 =
      pages.findIdx (Fortinet.codeStop existing) + 1 := by
  induction pages with
  | nil =>
    rcases h with ⟨pg, hpg, _⟩
    cases hpg
  | cons pg rest ih =>
    rw [scanPages_cons, List.findIdx_cons]
    by_cases h1 : pg.rows.isEmpty
    · have hstop : Fortinet.codeStop existing pg = true := by
        simp [Fortinet.codeStop, h1]
      rw [if_pos h1, hstop]
      rfl
    · rw [if_neg h1]
      by_cases h2 : ((Fortinet.pageNewUrls existing pg).isEmpty &&
          !existing.isEmpty) = true
      · have hstop : Fortinet.codeStop existing pg = true := by
          simp only [Fortinet.codeStop, h2, Bool.or_true]
        rw [if_pos h2, hstop]
        rfl
      · have hstop : Fortinet.codeStop existing pg = false := by
          simp only [Fortinet.codeStop]
          rw [Bool.or_eq_false_iff]
          exact ⟨by simpa using h1, by simpa using h2⟩
        rw [if_neg h2, hstop]
        have hrest : ∃ pg2 ∈ rest, Fortinet.codeStop existing pg2 = true := by
          rcases h with ⟨pg2, hpg2, hs2⟩
          rcases List.mem_cons.mp hpg2 with heq | hpg2
          · rw [heq, hstop] at hs2
            cases hs2
          · exact ⟨pg2, hpg2, hs2⟩
        have hih := ih hrest
        simp only [cond_false]
        show (Fortinet.scanPages existing rest).2 + 1 =
          rest.findIdx (Fortinet.codeStop existing) + 1 + 1
        rw [hih]

theorem rows_empty_pageNewUrls (existing : List String) {pg : Fortinet.Page}
    (h : pg.rows.isEmpty = true) :
    (Fortinet.pageNewUrls existing pg).isEmpty = true := by
  have hr : pg.rows = [] := List.isEmpty_iff.mp h
  simp [Fortinet.pageNewUrls, hr]

theorem idents_empty_pageNewUrls (existing : List String) {pg : Fortinet.Page}
    (h : (pg.rows.filter (fun p => !(p == ""))).isEmpty = true) :
    (Fortinet.pageNewUrls existing pg).isEmpty = true := by
  have hr : pg.rows.filter (fun p => !(p == "")) = [] := List.isEmpty_iff.mp h
  simp [Fortinet.pageNewUrls, hr]

theorem codeStop_empty_existing (pg : Fortinet.Page) :
    Fortinet.codeStop [] pg = pg.rows.isEmpty := by
  simp [Fortinet.codeStop]

theorem codeStop_nonempty_existing {existing : List String}
    (hne : existing.isEmpty = false) (pg : Fortinet.Page) :
    Fortinet.codeStop existing pg =
      (Fortinet.pageNewUrls existing pg).isEmpty := by
  simp only [Fortinet.codeStop, hne, Bool.not_false, Bool.and_true]
  by_cases h1 : pg.rows.isEmpty = true
  · rw [h1, rows_empty_pageNewUrls existing h1]
    rfl
  · rw [Bool.not_eq_true] at h1
    rw [h1]
    simp

theorem specStop_eq_newEmpty (existing : List String) (pg : Fortinet.Page) :
    Fortinet.specStop existing pg =
      (Fortinet.pageNewUrls existing pg).isEmpty := by
  simp only [Fortinet.specStop]
  by_cases h2 : (pg.rows.filter (fun p => !(p == ""))).isEmpty = true
  · rw [idents_empty_pageNewUrls existing h2, h2]
    rfl
  · rw [Bool.not_eq_true] at h2
    rw [h2]
    simp

theorem codeStop_eq_specStop {existing : List String} (hne : existing ≠ [])
    (pg : Fortinet.Page) :
    Fortinet.codeStop existing pg = Fortinet.specStop existing pg := by
  have hex : existing.isEmpty = false := by
    cases existing with
    | nil => exact absurd rfl hne
    | cons a l => rfl
  rw [codeStop_nonempty_existing hex pg, specStop_eq_newEmpty]

theorem scrape_detail_url (t : String → Except String Fortinet.DetailPage)
    (adv : Fortinet.Advisory) :
    (Fortinet.scrape_detail t adv).url = adv.url := by
  simp only [Fortinet.scrape_detail]
  by_cases h : (adv.url == "") = true
  · rw [if_pos h]
  · rw [if_neg h]
    cases t adv.url <;> rfl

theorem stageDetails_present (t : String → Except String Fortinet.DetailPage)
    (s : Store) (uniques : List Fortinet.Advisory) {adv : Fortinet.Advisory}
    (h : adv ∈ uniques) :
    urlPresent (Fortinet.stageDetails t s uniques) adv.url = true := by
  have hmem : ((Fortinet.scrape_detail t adv).url,
      Fortinet.encode (Fortinet.scrape_detail t adv)) ∈
      ((uniques.map (Fortinet.scrape_detail t)).map
        (fun a => (a.url, Fortinet.encode a))) :=
    List.mem_map_of_mem _ (List.mem_map_of_mem _ h)
  have hpres := urlPresent_stageAll_of_mem .upsertReplace Fortinet.VENDOR_NAME
    ((uniques.map (Fortinet.scrape_detail t)).map
      (fun a => (a.url, Fortinet.encode a))) s hmem
  rw [scrape_detail_url] at hpres
  exact hpres

/-! C1-C10: the claims. -/

/-- C1: the set of identities whose detail pages are fetched is exactly
(discovered) minus (existing): okta's `urls_to_fetch` is precisely the set
difference of the discovered and existing sets, and every url the fortinet
delta-scan queues for a detail fetch is absent from the existing set loaded
at run start. -/
theorem delta_fetch_set_exact :
    (∀ (discovered existing : List String) (u : String),
      u ∈ Okta.urls_to_fetch discovered existing ↔
        u ∈ discovered ∧ u ∉ existing) ∧
    (∀ (existing : List String) (pages : List Fortinet.Page) (u : String),
      u ∈ (Fortinet.scanPages existing pages).1 → u ∉ existing) := by
  constructor
  · intro discovered existing u
    exact mem_deltaUrls
  · exact scanPages_not_existing

/-- Witness for delta_fetch_set_exact at concrete inputs. -/
theorem delta_fetch_set_exact_witness :
    ("https://trust.okta.com/security-advisories/a" ∈
      Okta.urls_to_fetch
        ["https://trust.okta.com/security-advisories/a",
          "https://trust.okta.com/security-advisories/b"]
        ["https://trust.okta.com/security-advisories/b"]) ∧
    ("https://www.fortiguard.com/psirt/FG-IR-25-001" ∉
      ["https://www.fortiguard.com/psirt/FG-IR-24-000"]) := by
  constructor
  · exact (delta_fetch_set_exact.1 _ _ _).mpr (by decide)
  · exact delta_fetch_set_exact.2
      ["https://www.fortiguard.com/psirt/FG-IR-24-000"]
      [⟨["/psirt/FG-IR-25-001"]⟩, ⟨[]⟩]
      "https://www.fortiguard.com/psirt/FG-IR-25-001" (by decide)

/-- C2: a second run against an unchanged frontier stages nothing new: a
conflicting insert under insert-if-absent is a no-op, re-upserting
unchanged content under upsert-replace leaves the row identical, and the
whole pipeline run twice (same frontier, same fetch results) leaves the
store of the first run exactly unchanged. -/
theorem pipeline_second_run_noop :
    (∀ (s : Store) (v u p : String),
      urlPresent s u = true → insertIfAbsent s v u p = s) ∧
    (∀ (s : Store) (v u p : String),
      urlPresent s u = true → writtenAs s u p → upsertReplace s v u p = s) ∧
    (∀ (pol : WritePolicy) (v : String) (frontier : List String)
        (fetch : String → Option String) (s : Store),
      runPipeline pol v frontier fetch (runPipeline pol v frontier fetch s) =
        runPipeline pol v frontier fetch s) := by
  refine ⟨?_, ?_, ?_⟩
  · intro s v u p h
    exact insertIfAbsent_noop v p h
  · intro s v u p h hw
    exact upsertReplace_noop v h hw
  · exact runPipeline_idem

/-- Witness for pipeline_second_run_noop at concrete inputs. -/
theorem pipeline_second_run_noop_witness :
    insertIfAbsent [⟨"Okta", "https://x/a", "payload", false⟩] "Okta"
        "https://x/a" "other" =
      [⟨"Okta", "https://x/a", "payload", false⟩] ∧
    upsertReplace [⟨"Jenkins", "https://x/a", "payload", false⟩] "Jenkins"
        "https://x/a" "payload" =
      [⟨"Jenkins", "https://x/a", "payload", false⟩] := by
  constructor
  · exact pipeline_second_run_noop.1 _ "Okta" _ "other" (by decide)
  · exact pipeline_second_run_noop.2.1 _ "Jenkins" _ "payload" (by decide)
      (by simp [writtenAs])

/-- C3: a permanently failing transport makes the checkpoint fetch loop
perform exactly NAV_RETRIES attempts and return the failure outcome; the
loop can never exceed NAV_RETRIES attempts; and okta's single-attempt fetch
turns a transport error into the (url, none) failure outcome. -/
theorem retry_ceiling_exact :
    (∀ transport : Nat → Checkpoint.AttemptOutcome,
      (∀ n, Checkpoint.attemptOk (transport n) = false) →
        Checkpoint.fetch_page_and_parse transport =
          (none, Checkpoint.NAV_RETRIES)) ∧
    (∀ transport : Nat → Checkpoint.AttemptOutcome,
      (Checkpoint.fetch_page_and_parse transport).2 ≤
        Checkpoint.NAV_RETRIES) ∧
    (∀ (t : String → Except String String) (url msg : String),
      t url = .error msg → Okta.fetch_advisory_detail t url = (url, none)) := by
  refine ⟨?_, ?_, ?_⟩
  · intro transport hfail
    show Checkpoint.fetchLoop transport 1 Checkpoint.NAV_RETRIES 0 =
      (none, Checkpoint.NAV_RETRIES)
    rw [fetchLoop_all_fail transport hfail Checkpoint.NAV_RETRIES 1 0,
      Nat.zero_add]
  · intro transport
    have h := fetchLoop_attempts_le transport Checkpoint.NAV_RETRIES 1 0
    rw [Nat.zero_add] at h
    exact h
  · intro t url msg h
    simp [Okta.fetch_advisory_detail, h]

/-- Witness for retry_ceiling_exact at concrete inputs. -/
theorem retry_ceiling_exact_witness :
    Checkpoint.fetch_page_and_parse (fun _ => Checkpoint.AttemptOutcome.exn) =
      (none, Checkpoint.NAV_RETRIES) ∧
    Okta.fetch_advisory_detail (fun _ => Except.error "timeout")
        "https://x/a" =
      ("https://x/a", none) := by
  constructor
  · exact retry_ceiling_exact.1 _ (fun n => rfl)
  · exact retry_ceiling_exact.2.2 _ "https://x/a" "timeout" rfl

/-- C4 counterexample: a fortinet advisory whose detail fetch fails is
still staged — the transport fails for its url, yet after the staging
stage the store holds a row for it (built from the unchanged discovery-time
summary), contradicting the claim that a failed document is not staged. -/
theorem failed_fetch_still_staged_counterexample :
    ((fun _ => Except.error "timeout" :
        String → Except String Fortinet.DetailPage)
      "https://www.fortiguard.com/psirt/FG-IR-25-001" =
        Except.error "timeout") ∧
    urlPresent
      (Fortinet.stageDetails (fun _ => Except.error "timeout") []
        [⟨"https://www.fortiguard.com/psirt/FG-IR-25-001", "FG-IR-25-001",
          "desc", [], "2025-01-01", "kernel", "High", none, none, none,
          none⟩])
      "https://www.fortiguard.com/psirt/FG-IR-25-001" = true :=
  ⟨rfl, rfl⟩

/-- C4 (amended): per-document fetch/extract failures never escape the
fetch/extract stage and the run proceeds — okta and juniper collect a
record only when its fetch succeeded, so their failed documents are
skipped, while fortinet's scrape_detail catches the error, returns the
discovery-time summary unchanged, and that summary is still staged. -/
theorem per_document_failures_contained :
    (∀ (t : String → Except String String) (urls : List String)
        (rec : String × String),
      rec ∈ Okta.new_records t urls → ∃ d, t rec.1 = Except.ok d) ∧
    (∀ (t : String → Except String String)
        (advisories : List (String × String)) (rec : String × String),
      rec ∈ Juniper.scrape_batch t advisories →
        ∃ d, t rec.1 = Except.ok d) ∧
    (∀ (t : String → Except String Fortinet.DetailPage)
        (adv : Fortinet.Advisory) (msg : String),
      t adv.url = Except.error msg → Fortinet.scrape_detail t adv = adv) ∧
    (∀ (t : String → Except String Fortinet.DetailPage) (s : Store)
        (uniques : List Fortinet.Advisory) (adv : Fortinet.Advisory),
      adv ∈ uniques →
        urlPresent (Fortinet.stageDetails t s uniques) adv.url = true) := by
  refine ⟨?_, ?_, ?_, ?_⟩
  · intro t urls rec hrec
    simp only [Okta.new_records, List.mem_filterMap] at hrec
    rcases hrec with ⟨u, _, hmatch⟩
    cases ht : t u with
    | ok d =>
      simp only [Okta.fetch_advisory_detail, ht] at hmatch
      have heq : (u, d) = rec := Option.some.inj hmatch
      subst heq
      exact ⟨d, ht⟩
    | error e =>
      simp only [Okta.fetch_advisory_detail, ht] at hmatch
      cases hmatch
  · intro t advisories rec hrec
    simp only [Juniper.scrape_batch, List.mem_filterMap] at hrec
    rcases hrec with ⟨tl, _, hmatch⟩
    cases ht : t tl.2 with
    | ok d =>
      simp only [Juniper.scrape_advisory, ht] at hmatch
      have heq : (tl.2, tl.1 ++ "|" ++ d) = rec := Option.some.inj hmatch
      subst heq
      exact ⟨d, ht⟩
    | error e =>
      simp only [Juniper.scrape_advisory, ht] at hmatch
      cases hmatch
  · intro t adv msg h
    simp [Fortinet.scrape_detail, h]
  · intro t s uniques adv h
    exact stageDetails_present t s uniques h

/-- Witness for per_document_failures_contained at concrete inputs. -/
theorem per_document_failures_contained_witness :
    (∃ d, (fun _ => Except.ok "data" : String → Except String String)
      "https://x/ok" = Except.ok d) ∧
    (∃ d, (fun _ => Except.ok "data" : String → Except String String)
      "https://x/jlink" = Except.ok d) ∧
    Fortinet.scrape_detail (fun _ => Except.error "boom")
        ⟨"https://x/a", "ir", "d", [], "u", "c", "s", none, none, none,
          none⟩ =
      ⟨"https://x/a", "ir", "d", [], "u", "c", "s", none, none, none,
        none⟩ ∧
    urlPresent
      (Fortinet.stageDetails (fun _ => Except.error "boom") []
        [⟨"https://x/a", "ir", "d", [], "u", "c", "s", none, none, none,
          none⟩]) "https://x/a" = true := by
  refine ⟨?_, ?_, ?_, ?_⟩
  · exact per_document_failures_contained.1 (fun _ => Except.ok "data")
      ["https://x/ok"] ("https://x/ok", "data") (by decide)
  · exact per_document_failures_contained.2.1 (fun _ => Except.ok "data")
      [("jtitle", "https://x/jlink")] ("https://x/jlink", "jtitle" ++ "|" ++ "data")
      (by decide)
  · exact per_document_failures_contained.2.2.1 (fun _ => Except.error "boom")
      ⟨"https://x/a", "ir", "d", [], "u", "c", "s", none, none, none, none⟩
      "boom" rfl
  · exact per_document_failures_contained.2.2.2 (fun _ => Except.error "boom")
      [] [⟨"https://x/a", "ir", "d", [], "u", "c", "s", none, none, none,
        none⟩]
      (⟨"https://x/a", "ir", "d", [], "u", "c", "s", none, none, none,
        none⟩ : Fortinet.Advisory) (by decide)

/-- C5 counterexample: checkpoint's identity lookup has no error handling,
so a store failure aborts the whole run instead of letting it proceed with
an empty existing set. -/
theorem store_read_failure_aborts_checkpoint_counterexample :
    Checkpoint.runMain (Except.error DbError.unavailable)
        (fun _ _ => Checkpoint.AttemptOutcome.exn)
        [⟨"sk123", "sk123", "fields"⟩] =
      Except.error DbError.unavailable :=
  rfl

/-- C5 (amended): fedora and juniper fail open on a store read failure —
the run proceeds with the empty existing set and the failure is logged by a
warning distinct from the found-zero info line — while checkpoint's lookup
propagates the store error unchanged and its run aborts. -/
theorem store_read_failure_fail_open :
    (∀ e, Fedora.get_existing_urls (Except.error e) =
      ([], LookupLog.warnStoreFail)) ∧
    (∀ urls, Fedora.get_existing_urls (Except.ok urls) =
      (urls, LookupLog.infoFound urls.length)) ∧
    (∀ e, Juniper.get_existing_urls (Except.error e) =
      ([], LookupLog.warnStoreFail)) ∧
    (∀ urls, Juniper.get_existing_urls (Except.ok urls) =
      (urls, LookupLog.infoFound urls.length)) ∧
    (∀ n, LookupLog.warnStoreFail ≠ LookupLog.infoFound n) ∧
    (∀ (e : DbError) (frontier : List String)
        (fetch : String → Option String) (s : Store),
      Fedora.runMain (Except.error e) frontier fetch s =
        stageAll .insertIfAbsent s Fedora.VENDOR_NAME
          ((deltaUrls frontier []).filterMap
            (fun u => (fetch u).map (fun p => (u, p))))) ∧
    (∀ e, Checkpoint.get_existing_urls (Except.error e) = Except.error e) := by
  refine ⟨fun e => rfl, fun urls => rfl, fun e => rfl, fun urls => rfl,
    ?_, fun e frontier fetch s => rfl, fun e => rfl⟩
  intro n h
  exact LookupLog.noConfusion h

/-- Witness for store_read_failure_fail_open at concrete inputs. -/
theorem store_read_failure_fail_open_witness :
    Fedora.get_existing_urls (Except.error DbError.unavailable) =
      ([], LookupLog.warnStoreFail) ∧
    LookupLog.warnStoreFail ≠ LookupLog.infoFound 0 :=
  ⟨store_read_failure_fail_open.1 DbError.unavailable,
    store_read_failure_fail_open.2.2.2.2.1 0⟩

/-- C6: for an upsert-replace vendor, re-ingesting an already staged
identity with a changed payload rewrites that row's raw payload in place:
exactly one row for the url before and after, every row for the url now
carries the new payload, and the total row count is unchanged. -/
theorem upsert_replace_updates_in_place (s : Store) (v u p : String)
    (h : (s.filter (fun r => r.source_url == u)).length = 1) :
    ((upsertReplace s v u p).filter
      (fun r => r.source_url == u)).length = 1 ∧
    (∀ r ∈ (upsertReplace s v u p).filter (fun r => r.source_url == u),
      r.raw_data = p) ∧
    (upsertReplace s v u p).length = s.length := by
  have hne : s.filter (fun r => r.source_url == u) ≠ [] := by
    intro h0
    rw [h0] at h
    simp at h
  obtain ⟨r0, hr0⟩ := List.exists_mem_of_ne_nil _ hne
  have hr0' := List.mem_filter.mp hr0
  have hpres : urlPresent s u = true :=
    urlPresent_iff.mpr ⟨r0, hr0'.1, by simpa using hr0'.2⟩
  have hform : upsertReplace s v u p =
      s.map (fun r => if r.source_url == u then
        { r with raw_data := p, processed := false } else r) := by
    simp only [upsertReplace, if_pos hpres]
  have hcomp : ∀ r ∈ s,
      ((fun r2 : Row => r2.source_url == u) ∘
        (fun r2 : Row => if r2.source_url == u then
          { r2 with raw_data := p, processed := false } else r2)) r =
        (r.source_url == u) := by
    intro r _
    by_cases hq : (r.source_url == u) = true
    · simp only [Function.comp_apply, if_pos hq]
    · simp only [Function.comp_apply, if_neg hq]
  have hfilter : (upsertReplace s v u p).filter
      (fun r => r.source_url == u) =
      (s.filter (fun r => r.source_url == u)).map
        (fun r => if r.source_url == u then
          { r with raw_data := p, processed := false } else r) := by
    rw [hform, List.filter_map, List.filter_congr hcomp]
  refine ⟨?_, ?_, ?_⟩
  · rw [hfilter, List.length_map, h]
  · intro r hr
    rw [hfilter] at hr
    rcases List.mem_map.mp hr with ⟨r1, hr1, rfl⟩
    have hP := (List.mem_filter.mp hr1).2
    rw [if_pos hP]
  · rw [hform, List.length_map]

/-- Witness for upsert_replace_updates_in_place at concrete inputs. -/
theorem upsert_replace_updates_in_place_witness :
    (((upsertReplace [⟨"Jenkins", "https://x/a", "old", false⟩] "Jenkins"
      "https://x/a" "new").filter
        (fun r => r.source_url == "https://x/a")).length = 1) ∧
    ((upsertReplace [⟨"Jenkins", "https://x/a", "old", false⟩] "Jenkins"
      "https://x/a" "new").length =
        [(⟨"Jenkins", "https://x/a", "old", false⟩ : Row)].length) := by
  have h := upsert_replace_updates_in_place
    [⟨"Jenkins", "https://x/a", "old", false⟩] "Jenkins" "https://x/a" "new"
    (by decide)
  exact ⟨h.1, h.2.2⟩

/-- C7 counterexample: with the empty existing set, the first listing page
here yields no identities at all (its single row has no detail path), so by
the claim the scan should stop there (first stopping page at index 0, one
page scanned), yet the code scans a second page. -/
theorem delta_scan_spec_stop_counterexample :
    Fortinet.specStop [] ⟨[""]⟩ = true ∧
    ([(⟨[""]⟩ : Fortinet.Page), ⟨[]⟩].findIdx (Fortinet.specStop []) + 1
      = 1) ∧
    (Fortinet.scanPages [] [⟨[""]⟩, ⟨[]⟩]).2 = 2 :=
  ⟨rfl, rfl, rfl⟩

/-- C7 (amended): the delta-scan stops exactly at the first page satisfying
the code's stop condition — a page with no advisory rows, or a page with no
new identities while the existing set is non-empty; whenever the existing
set is non-empty this condition coincides with the claimed one (no
identities absent from the existing set, or none at all). -/
theorem delta_scan_terminates_at_stop (existing : List String)
    (pages : List Fortinet.Page)
    (h : ∃ pg ∈ pages, Fortinet.codeStop existing pg = true) :
    (Fortinet.scanPages existing pages).2 =
      pages.findIdx (Fortinet.codeStop existing) + 1 ∧
    (existing ≠ [] → ∀ pg, Fortinet.codeStop existing pg =
      Fortinet.specStop existing pg) :=
  ⟨scanPages_stops_at_first existing pages h,
    fun hne pg => codeStop_eq_specStop hne pg⟩

/-- Witness for delta_scan_terminates_at_stop at concrete inputs. -/
theorem delta_scan_terminates_at_stop_witness :
    (Fortinet.scanPages ["https://old"] [⟨["/a"]⟩, ⟨[]⟩]).2 =
      [(⟨["/a"]⟩ : Fortinet.Page), ⟨[]⟩].findIdx
        (Fortinet.codeStop ["https://old"]) + 1 ∧
    (["https://old"] ≠ ([] : List String) → ∀ pg,
      Fortinet.codeStop ["https://old"] pg =
        Fortinet.specStop ["https://old"] pg) :=
  delta_scan_terminates_at_stop ["https://old"] [⟨["/a"]⟩, ⟨[]⟩]
    (by decide)

/-- C8 (code bug): in juniper's staging loop one failing execute aborts
the psycopg2 transaction — the later executes raise inside the aborted
transaction and the single final COMMIT rolls back — so a batch of three
records whose middle write fails commits zero records rather than the
remaining two; the same batch with no failing write commits all three. -/
theorem one_failed_write_loses_batch :
    Juniper.insert_into_staging (fun u => u == "https://x/b") []
        [("https://x/a", "pa"), ("https://x/b", "pb"),
          ("https://x/c", "pc")] = ([] : Store) ∧
    Juniper.insert_into_staging (fun _ => false) []
        [("https://x/a", "pa"), ("https://x/b", "pb"),
          ("https://x/c", "pc")] =
      [⟨Juniper.VENDOR_NAME, "https://x/a", "pa", false⟩,
        ⟨Juniper.VENDOR_NAME, "https://x/b", "pb", false⟩,
        ⟨Juniper.VENDOR_NAME, "https://x/c", "pc", false⟩] :=
  ⟨rfl, rfl⟩

/-- C9: no write the pipeline performs ever sets the processed flag to
true: after any staging operation (the shared batch writer under either
policy, checkpoint's per-record insert, juniper's per-row loop), every row
either already existed unchanged or has processed = false. -/
theorem processed_flag_never_set (s : Store) :
    (∀ (pol : WritePolicy) (v : String) (recs : List (String × String)),
      ∀ r ∈ stageAll pol s v recs, r ∈ s ∨ r.processed = false) ∧
    (∀ src data : String,
      ∀ r ∈ Checkpoint.insert_advisory s src data,
        r ∈ s ∨ r.processed = false) ∧
    (∀ (fails : String → Bool) (rows : List (String × String)),
      ∀ r ∈ Juniper.insert_into_staging fails s rows,
        r ∈ s ∨ r.processed = false) :=
  ⟨fun pol v recs => mem_stageAll_processed pol v recs s,
    fun src data r hr => mem_stageOne_processed .insertIfAbsent s
      Checkpoint.VENDOR_NAME (src, data) r hr,
    fun fails rows => mem_juniper_insert_processed fails rows s⟩

/-- Witness for processed_flag_never_set: staging a fresh record next to a
row the downstream consumer has marked processed. -/
theorem processed_flag_never_set_witness :
    (⟨"Okta", "https://x/b", "q", false⟩ : Row) ∈
        [(⟨"Okta", "https://x/a", "p", true⟩ : Row)] ∨
      (⟨"Okta", "https://x/b", "q", false⟩ : Row).processed = false :=
  (processed_flag_never_set [⟨"Okta", "https://x/a", "p", true⟩]).1
    .insertIfAbsent "Okta" [("https://x/b", "q")]
    ⟨"Okta", "https://x/b", "q", false⟩ (by decide)

/-- C10: the only-old-advisories early exit fires solely when the existing
set is non-empty: with the empty existing set the code's stop condition
degenerates to "the page has no advisory rows", so such a run keeps
paginating past pages of advisories and stops only at the first rowless
page — it scans the entire listing. -/
theorem empty_existing_scans_entire_listing :
    (∀ pg, Fortinet.codeStop [] pg = pg.rows.isEmpty) ∧
    (∀ pages : List Fortinet.Page,
      (∃ pg ∈ pages, pg.rows.isEmpty = true) →
        (Fortinet.scanPages [] pages).2 =
          pages.findIdx (fun pg => pg.rows.isEmpty) + 1) := by
  constructor
  · exact codeStop_empty_existing
  · intro pages h
    have hfun : Fortinet.codeStop [] = fun pg => pg.rows.isEmpty :=
      funext codeStop_empty_existing
    have hfi : pages.findIdx (Fortinet.codeStop []) =
        pages.findIdx (fun pg => pg.rows.isEmpty) := by
      rw [hfun]
    rw [← hfi]
    apply scanPages_stops_at_first
    rcases h with ⟨pg, hpg, hrows⟩
    refine ⟨pg, hpg, ?_⟩
    rw [codeStop_empty_existing]
    exact hrows

/-- Witness for empty_existing_scans_entire_listing: a two-page listing
whose first page has advisories and whose second is empty is scanned to
the end when the existing set is empty. -/
theorem empty_existing_scans_entire_listing_witness :
    (Fortinet.scanPages [] [⟨["/a"]⟩, ⟨[]⟩]).2 =
      [(⟨["/a"]⟩ : Fortinet.Page), ⟨[]⟩].findIdx
        (fun pg => pg.rows.isEmpty) + 1 :=
  empty_existing_scans_entire_listing.2 [⟨["/a"]⟩, ⟨[]⟩] (by decide)
